import Mathlib

/-!
Shallow embedding of the `choccy` CHIP-8 emulator core
(`src/choccy_chip/src/emulator/{opcode.rs, emulator.rs, mod.rs, rom_parser.rs}`).

Machine integers are represented as `Nat`; every wrapping operation of the
source is made explicit with `% 256` / `% 65536`.  Rust panics (out-of-bounds
array indexing, overflow of `+=`/`-=` on `u8`/`u16` in debug builds,
`unreachable` arms, the deprecated-opcode `DEPRECATED!` message, and the
not-yet-implemented display arm) are modelled by the `RtError.panicked`
outcome of the `Except` monad.  `RtError.panicked` stands for an aborting
Rust panic, not for a typed error value returned to the caller: the source
crate defines no `OpCodeError` / `StackOverflow` / `StackUnderflow` /
`AddressOutOfRange` types at all.
-/

/-- Outcome of running a piece of the emulator: `panicked msg` models a Rust
panic (process-aborting), carrying the panic message of the source. -/
inductive RtError where
  | panicked (msg : String)
  deriving DecidableEq, Repr

/-- Result type of the embedded Rust code. -/
abbrev RtResult (α : Type) : Type := Except RtError α

/-- Pointwise update of a function, used to model in-place array writes. -/
def upd {α : Type} (f : Nat → α) (i : Nat) (v : α) : Nat → α :=
  fun j => if j = i then v else f j

/-- Checked 16-bit addition: `a + b` on `u16` panics past `0xFFFF` (debug). -/
def chkAdd16 (a b : Nat) : RtResult Nat :=
  if a + b ≤ 65535 then .ok (a + b) else .error (.panicked "attempt to add with overflow")

/-- Checked 16-bit subtraction: `a - b` on `u16` panics below `0` (debug). -/
def chkSub16 (a b : Nat) : RtResult Nat :=
  if b ≤ a then .ok (a - b) else .error (.panicked "attempt to subtract with overflow")

/-- Constants of `emulator/mod.rs`. -/
def RAM_SIZE : Nat := 4096

/-- The CHIP-8 CPU has 16 levels of stack (`mod.rs`). -/
def STACK_SIZE : Nat := 16

/-- Number of keys (`mod.rs`). -/
def NUM_KEYS : Nat := 16

/-- Width of the CHIP-8 screen (`mod.rs`). -/
def SCREEN_WIDTH : Nat := 64

/-- Height of the CHIP-8 screen (`mod.rs`). -/
def SCREEN_HEIGHT : Nat := 32

/-- Size of the character set (`mod.rs`). -/
def SPRITE_SET_SIZE : Nat := 80

/-- The `SPRITE_SET` font of `mod.rs`, 5 bytes per character `0`-`F`. -/
def SPRITE_SET : List Nat :=
  [0xF0, 0x90, 0x90, 0x90, 0xF0,
   0x20, 0x60, 0x20, 0x20, 0x70,
   0xF0, 0x10, 0xF0, 0x80, 0xF0,
   0xF0, 0x10, 0xF0, 0x10, 0xF0,
   0x90, 0x90, 0xF0, 0x10, 0x10,
   0xF0, 0x80, 0xF0, 0x10, 0xF0,
   0xF0, 0x80, 0xF0, 0x90, 0xF0,
   0xF0, 0x10, 0x20, 0x40, 0x40,
   0xF0, 0x90, 0xF0, 0x90, 0xF0,
   0xF0, 0x90, 0xF0, 0x10, 0xF0,
   0xF0, 0x90, 0xF0, 0x90, 0x90,
   0xE0, 0x90, 0xE0, 0x90, 0xE0,
   0xF0, 0x80, 0x80, 0x80, 0xF0,
   0xE0, 0x90, 0x90, 0x90, 0xE0,
   0xF0, 0x80, 0xF0, 0x80, 0xF0,
   0xF0, 0x80, 0xF0, 0x80, 0x80]

/-- Machine state of `emulator.rs` (`Emu` plus the register structs of
`cpu/registers.rs`): fixed-size arrays become total functions, reads are
bounds-checked at use sites exactly like Rust indexing. -/
structure Emu where
  program_counter : Nat
  stack_pointer : Nat
  i_register : Nat
  v : Nat → Nat
  ram : Nat → Nat
  stack : Nat → Nat
  keys : Nat → Bool
  screen : Nat → Bool
  delay_timer : Nat
  sound_timer : Nat

/-- The `Emu::new` constructor: program counter `0x200`, all arrays zeroed,
font copied into the first 80 bytes of RAM. -/
def Emu.new : Emu :=
  { program_counter := 0x200
    stack_pointer := 0
    i_register := 0
    v := fun _ => 0
    ram := fun i => if i < SPRITE_SET_SIZE then SPRITE_SET.getD i 0 else 0
    stack := fun _ => 0
    keys := fun _ => false
    screen := fun _ => false
    delay_timer := 0
    sound_timer := 0 }

/-- The `get_register_val` accessor: `self.general_registers.v[register as usize]`,
panicking when the index is 16 or more. -/
def get_register_val (e : Emu) (register : Nat) : RtResult Nat :=
  if register < 16 then .ok (e.v register) else .error (.panicked "index out of bounds")

/-- The `set_register_val` accessor, panicking when the index is 16 or more. -/
def set_register_val (e : Emu) (register val : Nat) : RtResult Emu :=
  if register < 16 then .ok { e with v := upd e.v register val }
  else .error (.panicked "index out of bounds")

/-- Bounds-checked RAM read, `self.ram[i]`. -/
def read_ram (e : Emu) (i : Nat) : RtResult Nat :=
  if i < RAM_SIZE then .ok (e.ram i) else .error (.panicked "index out of bounds")

/-- Bounds-checked RAM write, `self.ram[i] = val`. -/
def write_ram (e : Emu) (i val : Nat) : RtResult Emu :=
  if i < RAM_SIZE then .ok { e with ram := upd e.ram i val }
  else .error (.panicked "index out of bounds")

/-- Bounds-checked keypad read, `self.keys[key as usize]`. -/
def read_key (e : Emu) (key : Nat) : RtResult Bool :=
  if key < NUM_KEYS then .ok (e.keys key) else .error (.panicked "index out of bounds")

/-- The `push_stack` method of `emulator.rs`: writes `stack[sp]` (panicking
out of bounds when `sp` is already 16) and then increments the pointer. -/
def push_stack (e : Emu) (address : Nat) : RtResult Emu :=
  if e.stack_pointer < STACK_SIZE then
    .ok { e with stack := upd e.stack e.stack_pointer address
                 stack_pointer := e.stack_pointer + 1 }
  else .error (.panicked "index out of bounds")

/-- The `pop_stack` method of `emulator.rs`: decrements the `u8` pointer
(panicking on underflow at 0 in a debug build) and reads `stack[sp]`. -/
def pop_stack (e : Emu) : RtResult (Nat × Emu) :=
  if e.stack_pointer = 0 then .error (.panicked "attempt to subtract with overflow")
  else if e.stack_pointer - 1 < STACK_SIZE then
    .ok (e.stack (e.stack_pointer - 1), { e with stack_pointer := e.stack_pointer - 1 })
  else .error (.panicked "index out of bounds")

/-- The message of the `unreachable` macro in the source. -/
def unreachableMsg : String := "internal error: entered unreachable code"

/-- The `OpCode` enum of `opcode.rs` (no `Bcd` variant exists there). -/
inductive OpCode where
  | nop
  | call (address : Nat)
  | display (toDraw : Option (Nat × Nat × Nat))
  | ret
  | flow (case address : Nat)
  | skipEquals (case register constant : Nat)
  | skipRegEquals (case registerX registerY : Nat)
  | const (case register constant : Nat)
  | bitOp (registerX registerY case : Nat)
  | iOp (address : Nat)
  | memoryOp (register case : Nat)
  | randomOp (register constant : Nat)
  | keyOpSkip (case register : Nat)
  | keyOpWait (register : Nat)
  | timer (register case : Nat)
  | unknown
  deriving DecidableEq, Repr

/-- The `From<u16> for OpCode` decoder of `opcode.rs`, arm for arm and in
source order.  The two inner `match`es of the source whose fall-through is
`unreachable` are kept, so the decoder panics on exactly the words the
source panics on. -/
def decode (w : Nat) : RtResult OpCode :=
  let d0 := (w &&& 0xF000) >>> 12
  let d1 := (w &&& 0x0F00) >>> 8
  let d2 := (w &&& 0x00F0) >>> 4
  let d3 := w &&& 0x000F
  if d0 = 0 ∧ d1 = 0 ∧ d2 = 0 ∧ d3 = 0 then .ok .nop
  else if d0 = 0 ∧ d1 = 0 ∧ d2 = 0xE ∧ d3 = 0 then .ok (.display none)
  else if d0 = 0 ∧ d1 = 0 ∧ d2 = 0xE ∧ d3 = 0xE then .ok .ret
  else if d0 = 0 then .ok (.call (w &&& 0x0FFF))
  else if d0 = 1 ∨ d0 = 2 ∨ d0 = 0xB then .ok (.flow d0 (w &&& 0x0FFF))
  else if d0 = 3 ∨ d0 = 4 then .ok (.skipEquals d0 d1 (w &&& 0x00FF))
  else if (d0 = 5 ∨ d0 = 9) ∧ d3 = 0 then .ok (.skipRegEquals d0 d1 d2)
  else if d0 = 6 ∨ d0 = 7 then .ok (.const d0 d1 (w &&& 0x00FF))
  else if d0 = 8 then .ok (.bitOp d1 d2 d3)
  else if d0 = 0xA then .ok (.iOp (w &&& 0x0FFF))
  else if d0 = 0xC then .ok (.randomOp d1 (w &&& 0x00FF))
  else if d0 = 0xD then .ok (.display (some (d1, d2, d3)))
  else if d0 = 0xE ∧ (d2 = 9 ∨ d2 = 0xA) ∧ (d3 = 0xE ∨ d3 = 1) then
    if d2 = 9 ∧ d3 = 0xE then .ok (.keyOpSkip 0x9E d1)
    else if d2 = 0xA ∧ d3 = 1 then .ok (.keyOpSkip 0xA1 d1)
    else .error (.panicked unreachableMsg)
  else if d0 = 0xF ∧ d2 = 0 ∧ d3 = 0xA then .ok (.keyOpWait d1)
  else if d0 = 0xF ∧ d2 = 1 ∧ (d3 = 5 ∨ d3 = 8) then .ok (.timer d1 d3)
  else if d0 = 0xF ∧ d2 = 0 ∧ d3 = 7 then .ok (.timer d1 d3)
  else if d0 = 0xF ∧ (d2 = 1 ∨ d2 = 2 ∨ d2 = 5 ∨ d2 = 6) ∧ (d3 = 0xE ∨ d3 = 9 ∨ d3 = 5) then
    if d2 = 1 ∧ d3 = 0xE then .ok (.memoryOp d1 0x1E)
    else if d2 = 2 ∧ d3 = 9 then .ok (.memoryOp d1 29)
    else if d2 = 5 ∧ d3 = 5 then .ok (.memoryOp d1 55)
    else if d2 = 6 ∧ d3 = 5 then .ok (.memoryOp d1 65)
    else .error (.panicked unreachableMsg)
  else .ok .unknown

/-- The `handle_random_op` handler: `rand::random::<u8>()` is modelled by the
explicit oracle byte `rnd % 256` threaded through the executor. -/
def handle_random_op (e : Emu) (register constant rnd : Nat) : RtResult Emu :=
  set_register_val e register ((rnd % 256) &&& constant)

/-- The `handle_io` handler of `opcode.rs`: sets `I` to the address. -/
def handle_i_op (e : Emu) (address : Nat) : RtResult Emu :=
  .ok { e with i_register := address }

/-- The `handle_memory_op` handler: cases `0x1E`, `29`, `55`, `65`; the
register-file loops become `foldlM` over `0..=register_id`, with the same
bounds-checked RAM indexing (`i_reg + curr_reg`) as the source. -/
def handle_memory_op (e : Emu) (register case : Nat) : RtResult Emu :=
  match case with
  | 30 => do
      let rv ← get_register_val e register
      .ok { e with i_register := (e.i_register + rv) % 65536 }
  | 29 => do
      let rv ← get_register_val e register
      .ok { e with i_register := rv * 5 }
  | 55 =>
      let iReg := e.i_register
      (List.range (register + 1)).foldlM
        (fun acc currReg => do
          let val ← get_register_val acc currReg
          write_ram acc (iReg + currReg) val) e
  | 65 =>
      let iReg := e.i_register
      (List.range (register + 1)).foldlM
        (fun acc currReg => do
          let val ← read_ram acc (iReg + currReg)
          set_register_val acc currReg val) e
  | _ => .error (.panicked unreachableMsg)

/-- The `handle_bit_op` handler of `opcode.rs`, case for case.  Note the
write order of the source: cases 4, 5 and 7 write the arithmetic result to
`Vx` and then the flag to `VF`; cases 6 and `0xE` write the flag to `VF`
first and the shift result to `Vx` second. -/
def handle_bit_op (e : Emu) (registerX registerY case : Nat) : RtResult Emu := do
  let registerXVal ← get_register_val e registerX
  let registerYVal ← get_register_val e registerY
  match case with
  | 0 => set_register_val e registerX registerYVal
  | 1 => set_register_val e registerX (registerXVal ||| registerYVal)
  | 2 => set_register_val e registerX (registerXVal &&& registerYVal)
  | 3 => set_register_val e registerX (registerXVal ^^^ registerYVal)
  | 4 => do
      let e1 ← set_register_val e registerX ((registerXVal + registerYVal) % 256)
      set_register_val e1 0xF (if 256 ≤ registerXVal + registerYVal then 1 else 0)
  | 5 => do
      let e1 ← set_register_val e registerX ((registerXVal + 256 - registerYVal) % 256)
      set_register_val e1 0xF (if registerXVal < registerYVal then 0 else 1)
  | 6 => do
      let e1 ← set_register_val e 0xF (registerXVal &&& 0x1)
      set_register_val e1 registerX (registerXVal >>> 1)
  | 7 => do
      let e1 ← set_register_val e registerX ((registerYVal + 256 - registerXVal) % 256)
      set_register_val e1 0xF (if registerYVal < registerXVal then 0 else 1)
  | 14 => do
      let e1 ← set_register_val e 0xF ((registerXVal >>> 7) &&& 0x1)
      set_register_val e1 registerX ((registerXVal <<< 1) % 256)
  | _ => .error (.panicked unreachableMsg)

/-- The `handle_cond` handler: cases 3/4 compare `Vx` with the constant,
cases 5/9 read the register named by the third argument; a met condition
adds 2 to the program counter. -/
def handle_cond (e : Emu) (case register constant : Nat) : RtResult Emu := do
  let registerVal ← get_register_val e register
  let conditionMet ←
    match case with
    | 3 => .ok (registerVal == constant)
    | 4 => .ok (registerVal != constant)
    | 5 => do
        let o ← get_register_val e constant
        .ok (registerVal == o)
    | 9 => do
        let o ← get_register_val e constant
        .ok (registerVal != o)
    | _ => .error (.panicked unreachableMsg)
  if conditionMet then do
    let pcNew ← chkAdd16 e.program_counter 2
    .ok { e with program_counter := pcNew }
  else .ok e

/-- The `handle_const` handler: case 6 sets the register, case 7 adds with
`wrapping_add` (note the source computes `constant.wrapping_add(register_val)`). -/
def handle_const (e : Emu) (case register constant : Nat) : RtResult Emu :=
  match case with
  | 6 => set_register_val e register constant
  | 7 => do
      let registerVal ← get_register_val e register
      set_register_val e register ((constant + registerVal) % 256)
  | _ => .error (.panicked unreachableMsg)

/-- The `handle_return` handler: pops the stack into the program counter. -/
def handle_return (e : Emu) : RtResult Emu := do
  let (returnAddress, e1) ← pop_stack e
  .ok { e1 with program_counter := returnAddress }

/-- The `handle_flow` handler: case 1 jumps, case 2 pushes the current
program counter and jumps, case 11 jumps to `address + V0`. -/
def handle_flow (e : Emu) (case address : Nat) : RtResult Emu :=
  match case with
  | 1 => .ok { e with program_counter := address }
  | 2 => do
      let e1 ← push_stack e e.program_counter
      .ok { e1 with program_counter := address }
  | 11 => do
      let v0 ← get_register_val e 0
      let pcNew ← chkAdd16 address v0
      .ok { e with program_counter := pcNew }
  | _ => .error (.panicked unreachableMsg)

/-- The `handle_keyop_skip` handler: reads the key number from `Vx`, indexes
the 16-entry `keys` array with that full byte (bounds-checked like Rust),
then decides the skip from case `0x9E` or `0xA1`. -/
def handle_keyop_skip (e : Emu) (case register : Nat) : RtResult Emu := do
  let key ← get_register_val e register
  let keyState ← read_key e key
  let skip ←
    match case with
    | 158 => .ok keyState
    | 161 => .ok (!keyState)
    | _ => (.error (.panicked unreachableMsg) : RtResult Bool)
  if skip then do
    let pcNew ← chkAdd16 e.program_counter 2
    .ok { e with program_counter := pcNew }
  else .ok e

/-- Linear scan of the key array from index `start` with `fuel` entries left,
mirroring the `for i in 0..self.keys.len()` loop with `break` in
`handle_keyop_wait`: returns the first pressed index, if any. -/
def scan_keys (keys : Nat → Bool) (start fuel : Nat) : Option Nat :=
  match fuel with
  | 0 => none
  | f + 1 => if keys start then some start else scan_keys keys (start + 1) f

/-- The `handle_keyop_wait` handler: stores the first (lowest) pressed key
index into the register, or rewinds the program counter by 2 when no key is
pressed (a `u16 -= 2` that panics below 0 in a debug build). -/
def handle_keyop_wait (e : Emu) (register : Nat) : RtResult Emu :=
  match scan_keys e.keys 0 NUM_KEYS with
  | some i => set_register_val e register i
  | none => do
      let pcNew ← chkSub16 e.program_counter 2
      .ok { e with program_counter := pcNew }

/-- The `handle_timer` handler: case 7 reads the delay timer into `Vx`,
case 5 writes `Vx` to the delay timer, case 8 to the sound timer. -/
def handle_timer (e : Emu) (register case : Nat) : RtResult Emu :=
  match case with
  | 7 => set_register_val e register e.delay_timer
  | 5 => do
      let rv ← get_register_val e register
      .ok { e with delay_timer := rv }
  | 8 => do
      let rv ← get_register_val e register
      .ok { e with sound_timer := rv }
  | _ => .error (.panicked unreachableMsg)

/-- The `execute_opcode` dispatcher of `opcode.rs`:  `Call` hits the
`DEPRECATED!` panic of the source, `Display` hits the `todo` panic
("not yet implemented"), `Unknown` hits `unreachable`. -/
def execute_opcode (e : Emu) (opcode : OpCode) (rnd : Nat) : RtResult Emu :=
  match opcode with
  | .nop => .ok e
  | .skipEquals case register constant => handle_cond e case register constant
  | .skipRegEquals case registerX registerY => handle_cond e case registerX registerY
  | .const case register constant => handle_const e case register constant
  | .call _ => .error (.panicked "DEPRECATED!")
  | .display _ => .error (.panicked "not yet implemented")
  | .ret => handle_return e
  | .flow case address => handle_flow e case address
  | .bitOp registerX registerY case => handle_bit_op e registerX registerY case
  | .iOp address => handle_i_op e address
  | .memoryOp register case => handle_memory_op e register case
  | .keyOpSkip case register => handle_keyop_skip e case register
  | .keyOpWait register => handle_keyop_wait e register
  | .timer register case => handle_timer e register case
  | .randomOp register constant => handle_random_op e register constant rnd
  | .unknown => .error (.panicked unreachableMsg)

/-- The `fetch_opcode` method of `opcode.rs`: reads the two bytes at the
program counter (bounds-checked), builds the big-endian word, advances the
program counter by 2, then decodes. -/
def fetch_opcode (e : Emu) : RtResult (OpCode × Emu) := do
  let higherByte ← read_ram e e.program_counter
  let lowerByte ← read_ram e (e.program_counter + 1)
  let word := (higherByte <<< 8) ||| lowerByte
  let pcNew ← chkAdd16 e.program_counter 2
  let opcode ← decode word
  .ok (opcode, { e with program_counter := pcNew })

/-- Modelled from the spec: `step` (§4.3) is the fetch-decode-execute cycle;
`Emu::cycle` exists in `emulator.rs` only as a commented-out stub, so the
composition is taken from the spec while both components are from `src/`. -/
def step (e : Emu) (rnd : Nat) : RtResult Emu := do
  let (opcode, e1) ← fetch_opcode e
  execute_opcode e1 opcode rnd

/-- The `validate_rom` function of `rom_parser.rs`: rejects a ROM shorter
than 2 bytes as too small, and one longer than `RAM_SIZE - start_address`
as too large; every other ROM is returned unchanged as valid. -/
def validate_rom (rom_data : List Nat) (start_address : Nat) : Except String (List Nat) :=
  if rom_data.length < 2 then .error "ROM file is too small"
  else if rom_data.length > RAM_SIZE - start_address then .error "ROM file is too large"
  else .ok rom_data

/-- Modelled from the spec: `Emu::load_rom` is called by the tests in
`rom_parser.rs` and `integration_tests.rs` but is absent from `src/`;
§6 says program load "copies bytes verbatim into memory starting at the
start offset". -/
def load_rom (e : Emu) (start_address : Nat) (rom_data : List Nat) : Emu :=
  { e with ram := fun i =>
      if start_address ≤ i ∧ i < start_address + rom_data.length then
        rom_data.getD (i - start_address) 0
      else e.ram i }

/-- Modelled from the spec: the target pixel of a set sprite bit is
`((Vx+col) mod width, (Vy+row) mod height)` (§4.2 Draw, wrap-around), in the
row-major boolean grid of §3; this gives its flat index. -/
def pix_idx (x y : Nat) : Nat :=
  (y % SCREEN_HEIGHT) * SCREEN_WIDTH + x % SCREEN_WIDTH

/-- Modelled from the spec: the flat indices of the pixels targeted by the
set bits of one sprite byte `b` drawn at row `r` (§4.2 Draw: "for each of
the 8 bits per byte (most-significant first), if set"). -/
def row_targets (x y r b : Nat) : List Nat :=
  ((List.range 8).filter (fun c => (b >>> (7 - c)) &&& 1 == 1)).map
    (fun c => pix_idx (x + c) (y + r))

/-- Modelled from the spec: the flat indices targeted by a whole sprite,
rows starting at index `r` (first call uses `r = 0`), in loop order. -/
def sprite_targets (x y : Nat) : Nat → List Nat → List Nat
  | _, [] => []
  | r, b :: rest => row_targets x y r b ++ sprite_targets x y (r + 1) rest

/-- Modelled from the spec: one set sprite bit "XORs it into the framebuffer,
and ORs into a collision accumulator" (§4.2 Draw); the accumulator records
whether the pixel was lit before the XOR (a pixel is erased exactly then). -/
def draw_step (acc : (Nat → Bool) × Bool) (p : Nat) : (Nat → Bool) × Bool :=
  (fun q => if q = p then !acc.1 q else acc.1 q, acc.2 || acc.1 p)

/-- Modelled from the spec: drawing a sprite folds `draw_step` over the
targeted pixels in loop order, starting from the current framebuffer and a
clear collision accumulator. -/
def draw_sprite (fb : Nat → Bool) (x y : Nat) (sprite : List Nat) : (Nat → Bool) × Bool :=
  (sprite_targets x y 0 sprite).foldl draw_step (fb, false)

/-- Modelled from the spec: the Draw executor "reads `n` bytes starting at
the address register from memory" (§4.2 Draw). -/
def sprite_at (e : Emu) (n : Nat) : List Nat :=
  (List.range n).map (fun r => e.ram (e.i_register + r))

/-- Modelled from the spec: execution of `Draw` (absent from `src/`, where
the display arm of `execute_opcode` is a `todo` panic and `Graphics::draw`
is a `todo` stub): draws the `n`-byte sprite at `(Vx, Vy)` and then sets
"VF := 1 if any pixel was erased (collision), else 0" (§4.2 Draw). -/
def exec_display_draw (e : Emu) (rx ry n : Nat) : Emu :=
  let res := draw_sprite e.screen (e.v rx) (e.v ry) (sprite_at e n)
  { e with screen := res.1, v := upd e.v 0xF (if res.2 then 1 else 0) }

/-- Modelled from the spec: execution of the clear-screen instruction
(absent from `src/`, where the display arm is a `todo` panic): "resets every
framebuffer cell to unlit and performs no collision computation" (§4.2). -/
def exec_clear (e : Emu) : Emu :=
  { e with screen := fun _ => false }

/-- Concrete state with every framebuffer cell lit, used to observe that a
`Nop` leaves the framebuffer untouched. -/
def lit_state : Emu := { Emu.new with screen := fun _ => true }

/-- Concrete state whose address register points at the all-zero RAM region
above the loaded font. -/
def zero_sprite_state : Emu := { Emu.new with i_register := 0x200 }

/-- Concrete state for exercising WaitKey: the word `0xF50A` is stored at the
initial program counter `0x200` and only key 3 is pressed. -/
def waitkey_state : Emu :=
  { Emu.new with
      ram := fun i => if i = 0x200 then 0xF5 else if i = 0x201 then 0x0A else 0
      keys := fun j => j == 3 }

/-- Concrete state whose register `V0` holds 99, an out-of-range key number. -/
def oob_key_state : Emu :=
  { Emu.new with v := fun i => if i = 0 then 99 else 0 }

deriving instance DecidableEq for Except

/-- C1: the claim says executing a deprecated `Call` or `Unknown` returns a
recoverable typed error; the source instead panics — `Call` with the
`DEPRECATED!` message, `Unknown` through `unreachable` — and no error type
exists in `opcode.rs` despite its module doc announcing `OpCodeError`.
This theorem evaluates the embedded `execute_opcode` on every state: both
instructions end in the modelled panic, not in a typed error value. -/
theorem call_unknown_execution_panics :
    ∀ (e : Emu) (a rnd : Nat),
      execute_opcode e (.call a) rnd = .error (.panicked "DEPRECATED!") ∧
      execute_opcode e .unknown rnd = .error (.panicked unreachableMsg) :=
  fun _ _ _ => ⟨rfl, rfl⟩

/-- C2: the claim says `decode` never panics on any of the 65536 words; the
source decoder reaches `unreachable` on the word `0xE091` (and, among
others, `0xF019`): the inner `match`es of the `0xE` and `0xF` arms do not
cover every nibble pair admitted by their outer patterns. -/
theorem decode_panics_on_E091_F019 :
    decode 0xE091 = .error (.panicked unreachableMsg) ∧
    decode 0xF019 = .error (.panicked unreachableMsg) := by
  exact ⟨by decide, by decide⟩

/-- C4: the claim says the word `0xFx33` decodes to a `Bcd` instruction; the
decoder in `src/` has no `0xFx33` arm (and `OpCode` has no `Bcd` variant),
so `0xF033` falls through to `Unknown` — contradicting the repository's own
`opcode_tests.rs`, which expects `OpCode::Bcd(0)` for this word. -/
theorem decode_F033_is_unknown : decode 0xF033 = .ok .unknown := by decide

/-- C5 counterexample: the claim says `0x0000` decodes to `Clear`; in the
source it decodes to `Nop`, whose execution returns the state unchanged, so
a lit framebuffer cell stays lit — `0x0000` does not clear the screen. -/
theorem word0000_is_nop_not_clear :
    decode 0x0000 = .ok .nop ∧
    execute_opcode lit_state .nop 0 = .ok lit_state ∧
    lit_state.screen 0 = true := by
  exact ⟨by decide, rfl, rfl⟩

/-- C5 amended: the clear-screen word is `0x00EE`'s sibling `0x00E0`, decoded
as `Display None`; executing it (execution modelled from the spec, the
`src/` display arm being a `todo` panic) resets every framebuffer cell to
unlit and writes no register, in particular not `VF`. -/
theorem clear_is_00E0 :
    decode 0x00E0 = .ok (.display none) ∧
    (∀ (e : Emu) (q : Nat), (exec_clear e).screen q = false) ∧
    (∀ (e : Emu) (i : Nat), (exec_clear e).v i = e.v i) := by
  refine ⟨by decide, fun e q => rfl, fun e i => rfl⟩

/-- C6: the claim says a call with a full stack, a return with an empty
stack and a malformed memory access each yield a typed error value
(`StackOverflow` / `StackUnderflow` / `AddressOutOfRange`); the source has
no such types anywhere and instead panics: `push_stack` with stack pointer
16 indexes `stack[16]` out of bounds, `pop_stack` with stack pointer 0
underflows the `u8` subtraction, `MemStore` with `I = 0xFFF` and `x = 1`
indexes `ram[4096]` out of bounds, and fetching at program counter `0xFFF`
reads `ram[4096]` out of bounds. -/
theorem rom_faults_panic_not_typed :
    push_stack { Emu.new with stack_pointer := 16 } 0x202
        = .error (.panicked "index out of bounds") ∧
    pop_stack Emu.new = .error (.panicked "attempt to subtract with overflow") ∧
    handle_memory_op { Emu.new with i_register := 0xFFF } 1 55
        = .error (.panicked "index out of bounds") ∧
    fetch_opcode { Emu.new with program_counter := 0xFFF }
        = .error (.panicked "index out of bounds") := by
  exact ⟨rfl, rfl, rfl, rfl⟩

/-- C7 counterexample: the claim says every nonempty ROM of valid length —
including a one-byte ROM — is accepted; `validate_rom` rejects the one-byte
ROM `[0x00]` as "too small" (its own test `test_get_rom_rom_too_small`
asserts exactly this). -/
theorem one_byte_rom_rejected :
    validate_rom [0x00] 0x200 = .error "ROM file is too small" := rfl

/-- C3 counterexample: the claim says the second of two identical draws
always reports a collision in `VF`; for the one-byte all-zero sprite at
`I = 0x200` no pixel is ever set, and the second draw leaves `VF = 0`. -/
theorem double_draw_zero_sprite_no_collision :
    (exec_display_draw (exec_display_draw zero_sprite_state 0 1 1) 0 1 1).v 0xF = 0 := by
  rfl

/-- Reading an updated array cell at the written index yields the new value. -/
theorem upd_same {α : Type} (f : Nat → α) (i : Nat) (v : α) : upd f i v i = v := by
  simp [upd]

/-- Reading an updated array cell at any other index is unchanged. -/
theorem upd_other {α : Type} (f : Nat → α) (i j : Nat) (v : α) (h : j ≠ i) :
    upd f i v j = f j := by
  simp [upd, h]

/-- Writing the same cell twice keeps only the second write. -/
theorem upd_upd_same {α : Type} (f : Nat → α) (i : Nat) (a b : α) :
    upd (upd f i a) i b = upd f i b := by
  funext j
  by_cases h : j = i <;> simp [upd, h]

/-- Sequencing after a successful step runs the continuation. -/
@[simp] theorem rt_bind_ok {α β : Type} (a : α) (f : α → RtResult β) :
    ((.ok a : RtResult α) >>= f) = f a := rfl

/-- Sequencing after a panic propagates the panic. -/
@[simp] theorem rt_bind_error {α β : Type} (err : RtError) (f : α → RtResult β) :
    ((.error err : RtResult α) >>= f) = .error err := rfl

/-- Scanning a key range in which every key is up finds nothing. -/
theorem scan_keys_eq_none (keys : Nat → Bool) :
    ∀ (fuel start : Nat), (∀ j, start ≤ j → j < start + fuel → keys j = false) →
      scan_keys keys start fuel = none := by
  intro fuel
  induction fuel with
  | zero => intro start _; rfl
  | succ f ih =>
      intro start h
      unfold scan_keys
      rw [h start (le_refl _) (by omega)]
      exact ih (start + 1) (fun j h1 h2 => h j (by omega) (by omega))

/-- Scanning finds the pressed key below which every key is up. -/
theorem scan_keys_eq_some (keys : Nat → Bool) (k : Nat) (hk : keys k = true) :
    ∀ (fuel start : Nat), start ≤ k → k < start + fuel →
      (∀ j, start ≤ j → j < k → keys j = false) →
      scan_keys keys start fuel = some k := by
  intro fuel
  induction fuel with
  | zero => intro start h1 h2; omega
  | succ f ih =>
      intro start h1 h2 hleast
      unfold scan_keys
      by_cases hs : start = k
      · rw [hs, hk]; rfl
      · rw [hleast start (le_refl _) (by omega)]
        exact ih (start + 1) (by omega) (by omega) (fun j ha hb => hleast j (by omega) hb)

/-- Decoding the word `0xFx0A` yields `KeyOpWait x` for every register nibble. -/
theorem decode_waitkey (x : Nat) (hx : x < 16) :
    decode (((240 + x) <<< 8) ||| 10) = .ok (.keyOpWait x) := by
  interval_cases x <;> decide

/-- Framebuffer cells after a draw fold: each distinct targeted pixel is
toggled once, every other pixel is untouched. -/
theorem draw_foldl_fst : ∀ (l : List Nat) (fb : Nat → Bool) (c : Bool) (q : Nat), l.Nodup →
    (l.foldl draw_step (fb, c)).1 q = if q ∈ l then !fb q else fb q := by
  intro l
  induction l with
  | nil => intro fb c q _; simp
  | cons p t ih =>
      intro fb c q hnd
      rw [List.nodup_cons] at hnd
      rw [List.foldl_cons, ih _ _ q hnd.2]
      by_cases hqp : q = p
      · subst hqp
        simp [draw_step, hnd.1]
      · by_cases hqt : q ∈ t <;> simp [draw_step, hqp, hqt]

/-- Collision accumulator after a draw fold over distinct pixels: set iff
the accumulator was already set or some targeted pixel was lit. -/
theorem draw_foldl_snd : ∀ (l : List Nat) (fb : Nat → Bool) (c : Bool), l.Nodup →
    ((l.foldl draw_step (fb, c)).2 = true ↔ c = true ∨ ∃ p, p ∈ l ∧ fb p = true) := by
  intro l
  induction l with
  | nil => intro fb c _; simp
  | cons p t ih =>
      intro fb c hnd
      rw [List.nodup_cons] at hnd
      rw [List.foldl_cons, ih _ _ hnd.2]
      constructor
      · rintro (hc | ⟨p1, hp1, hfb⟩)
        · rcases Bool.or_eq_true_iff.mp hc with hc | hc
          · exact Or.inl hc
          · exact Or.inr ⟨p, List.mem_cons_self p t, hc⟩
        · have hne : p1 ≠ p := fun h => hnd.1 (h ▸ hp1)
          rw [show (draw_step (fb, c) p).1 p1 = fb p1 by simp [draw_step, hne]] at hfb
          exact Or.inr ⟨p1, List.mem_cons_of_mem p hp1, hfb⟩
      · rintro (hc | ⟨p1, hp1, hfb⟩)
        · exact Or.inl (by simp [draw_step, hc])
        · rcases List.mem_cons.mp hp1 with rfl | hp1
          · exact Or.inl (by simp [draw_step, hfb])
          · have hne : p1 ≠ p := fun h => hnd.1 (h ▸ hp1)
            exact Or.inr ⟨p1, hp1, by simp [draw_step, hne, hfb]⟩

/-- Two column offsets below 8 hitting the same pixel of the same row are
equal (wrap-around is modulo 64). -/
theorem pix_idx_col_inj (x y r : Nat) {c cp : Nat} (hc : c < 8) (hcp : cp < 8)
    (h : pix_idx (x + c) (y + r) = pix_idx (x + cp) (y + r)) : c = cp := by
  simp only [pix_idx, SCREEN_WIDTH, SCREEN_HEIGHT] at h
  omega

/-- Pixels of two distinct rows less than 32 apart never coincide. -/
theorem pix_idx_row_ne (x y : Nat) {c cp r rp : Nat}
    (hwin : rp < r + 32) (hlt : r < rp) :
    pix_idx (x + c) (y + r) ≠ pix_idx (x + cp) (y + rp) := by
  simp only [pix_idx, SCREEN_WIDTH, SCREEN_HEIGHT]
  intro h
  omega

/-- Pixels targeted by one sprite row lie on that row, at column offsets
below 8. -/
theorem mem_row_targets {x y r b p : Nat} (h : p ∈ row_targets x y r b) :
    ∃ c, c < 8 ∧ p = pix_idx (x + c) (y + r) := by
  unfold row_targets at h
  rw [List.mem_map] at h
  obtain ⟨c, hc, rfl⟩ := h
  rw [List.mem_filter] at hc
  exact ⟨c, List.mem_range.mp hc.1, rfl⟩

/-- One sprite row targets pairwise distinct pixels. -/
theorem row_targets_nodup (x y r b : Nat) : (row_targets x y r b).Nodup := by
  unfold row_targets
  refine List.Nodup.map_on ?_ (List.Nodup.filter _ (List.nodup_range 8))
  intro c hc cp hcp h
  rw [List.mem_filter] at hc hcp
  exact pix_idx_col_inj x y r (List.mem_range.mp hc.1) (List.mem_range.mp hcp.1) h

/-- Pixels targeted by a sprite lie on its rows, at column offsets below 8. -/
theorem mem_sprite_targets {x y p : Nat} :
    ∀ (s : List Nat) (r : Nat), p ∈ sprite_targets x y r s →
      ∃ i c, i < s.length ∧ c < 8 ∧ p = pix_idx (x + c) (y + (r + i)) := by
  intro s
  induction s with
  | nil => intro r h; simp [sprite_targets] at h
  | cons b rest ih =>
      intro r h
      rw [show sprite_targets x y r (b :: rest)
            = row_targets x y r b ++ sprite_targets x y (r + 1) rest from rfl,
          List.mem_append] at h
      rcases h with h | h
      · obtain ⟨c, hc, rfl⟩ := mem_row_targets h
        exact ⟨0, c, by simp, hc, by simp⟩
      · obtain ⟨i, c, hi, hc, heq⟩ := ih (r + 1) h
        refine ⟨i + 1, c, by simp; omega, hc, ?_⟩
        rw [heq]
        congr 2
        omega

/-- A sprite of at most 32 rows targets pairwise distinct pixels: its row
offsets stay distinct modulo the screen height and its column offsets
modulo the screen width. -/
theorem sprite_targets_nodup (x y : Nat) :
    ∀ (s : List Nat) (r : Nat), s.length ≤ 32 → (sprite_targets x y r s).Nodup := by
  intro s
  induction s with
  | nil => intro r _; exact List.nodup_nil
  | cons b rest ih =>
      intro r hlen
      rw [show sprite_targets x y r (b :: rest)
            = row_targets x y r b ++ sprite_targets x y (r + 1) rest from rfl,
          List.nodup_append]
      refine ⟨row_targets_nodup x y r b, ih (r + 1) (by simp at hlen ⊢; omega), ?_⟩
      intro p hp hq
      obtain ⟨c, hc, rfl⟩ := mem_row_targets hp
      obtain ⟨i, cp, hi, hcp, heq⟩ := mem_sprite_targets rest (r + 1) hq
      have hlen2 : rest.length ≤ 31 := by simp at hlen; omega
      exact pix_idx_row_ne x y (by omega) (by omega) heq

/-- C3 amended: for a Draw of height `n ≤ 15` whose coordinate registers are
not `VF`, executing the same Draw twice in succession toggles each targeted
pixel twice: a pixel `q` the first draw set (targeted and previously unlit)
is lit after the first draw and unlit after the second, every pixel `p`
holds its original value after the second draw (XOR self-cancellation), and
the second draw reports the collision `VF = 1` — the hypothesis that some
targeted pixel was initially unlit being exactly "the first draw set at
least one pixel". -/
theorem draw_twice_cancels_and_collides (e : Emu) (rx ry n q p : Nat)
    (hrxF : rx ≠ 15) (hryF : ry ≠ 15) (hn : n ≤ 15)
    (hq : q ∈ sprite_targets (e.v rx) (e.v ry) 0 (sprite_at e n))
    (hq0 : e.screen q = false) :
    (exec_display_draw e rx ry n).screen q = true ∧
    (exec_display_draw (exec_display_draw e rx ry n) rx ry n).screen q = false ∧
    (exec_display_draw (exec_display_draw e rx ry n) rx ry n).screen p = e.screen p ∧
    (exec_display_draw (exec_display_draw e rx ry n) rx ry n).v 0xF = 1 := by
  have hlen : (sprite_at e n).length ≤ 32 := by simp [sprite_at]; omega
  have hnd := sprite_targets_nodup (e.v rx) (e.v ry) (sprite_at e n) 0 hlen
  have hscr1 : ∀ j, (exec_display_draw e rx ry n).screen j
      = if j ∈ sprite_targets (e.v rx) (e.v ry) 0 (sprite_at e n) then !e.screen j
        else e.screen j := by
    intro j
    show (draw_sprite e.screen (e.v rx) (e.v ry) (sprite_at e n)).1 j = _
    rw [draw_sprite, draw_foldl_fst _ _ _ j hnd]
  have hvother : ∀ j, j ≠ 15 → (exec_display_draw e rx ry n).v j = e.v j := by
    intro j hj
    show upd e.v 15 _ j = e.v j
    exact upd_other _ _ _ _ hj
  have hx1 : (exec_display_draw e rx ry n).v rx = e.v rx := hvother rx hrxF
  have hy1 : (exec_display_draw e rx ry n).v ry = e.v ry := hvother ry hryF
  have hsp1 : sprite_at (exec_display_draw e rx ry n) n = sprite_at e n := rfl
  have hscr2 : ∀ j, (exec_display_draw (exec_display_draw e rx ry n) rx ry n).screen j
      = if j ∈ sprite_targets (e.v rx) (e.v ry) 0 (sprite_at e n)
          then !(exec_display_draw e rx ry n).screen j
        else (exec_display_draw e rx ry n).screen j := by
    intro j
    show (draw_sprite (exec_display_draw e rx ry n).screen
        ((exec_display_draw e rx ry n).v rx) ((exec_display_draw e rx ry n).v ry)
        (sprite_at (exec_display_draw e rx ry n) n)).1 j = _
    rw [hx1, hy1, hsp1, draw_sprite, draw_foldl_fst _ _ _ j hnd]
  have h1 : (exec_display_draw e rx ry n).screen q = true := by
    rw [hscr1 q, if_pos hq, hq0]
    rfl
  refine ⟨h1, ?_, ?_, ?_⟩
  · rw [hscr2 q, if_pos hq, h1]
    rfl
  · rw [hscr2 p, hscr1 p]
    by_cases hp : p ∈ sprite_targets (e.v rx) (e.v ry) 0 (sprite_at e n) <;>
      simp [hp]
  · have hcoll : (draw_sprite (exec_display_draw e rx ry n).screen (e.v rx) (e.v ry)
        (sprite_at e n)).2 = true := by
      rw [draw_sprite, draw_foldl_snd _ _ _ hnd]
      exact Or.inr ⟨q, hq, h1⟩
    show upd (exec_display_draw e rx ry n).v 15
        (if (draw_sprite (exec_display_draw e rx ry n).screen
            ((exec_display_draw e rx ry n).v rx) ((exec_display_draw e rx ry n).v ry)
            (sprite_at (exec_display_draw e rx ry n) n)).2 then 1 else 0) 15 = 1
    rw [hx1, hy1, hsp1, hcoll, upd_same]
    rfl

/-- C3 witness: the font glyph `0` at `I = 0` (first byte `0xF0`) drawn twice
at `(V0, V1) = (0, 0)` on the fresh machine: pixel 0 is set by the first
draw, cleared by the second, pixel 7 keeps its value, and the second draw
sets `VF = 1`. -/
theorem draw_twice_cancels_and_collides_witness :
    (exec_display_draw Emu.new 0 1 1).screen 0 = true ∧
    (exec_display_draw (exec_display_draw Emu.new 0 1 1) 0 1 1).screen 0 = false ∧
    (exec_display_draw (exec_display_draw Emu.new 0 1 1) 0 1 1).screen 7 = Emu.new.screen 7 ∧
    (exec_display_draw (exec_display_draw Emu.new 0 1 1) 0 1 1).v 0xF = 1 :=
  draw_twice_cancels_and_collides Emu.new 0 1 1 0 7 (by decide) (by decide) (by decide)
    (by decide) (by decide)

/-- C7 amended: `validate_rom` accepts a ROM exactly when it has at least 2
bytes and at most `RAM_SIZE - start_address` bytes (so a one-byte ROM is
rejected), and an accepted ROM is copied verbatim byte for byte from the
start offset (the copy modelled from the spec, `Emu::load_rom` being absent
from `src/`). -/
theorem rom_validation_and_verbatim_load (rom_data : List Nat) (start_address i : Nat)
    (e : Emu) (hs : start_address ≤ RAM_SIZE) (hi : i < rom_data.length) :
    (validate_rom rom_data start_address = .ok rom_data ↔
      2 ≤ rom_data.length ∧ rom_data.length + start_address ≤ RAM_SIZE) ∧
    (load_rom e start_address rom_data).ram (start_address + i) = rom_data.getD i 0 := by
  constructor
  · unfold validate_rom
    split_ifs with hsmall hlarge
    · exact iff_of_false (by simp) (by omega)
    · refine iff_of_false (by simp) ?_
      simp only [RAM_SIZE] at *
      omega
    · refine iff_of_true rfl ?_
      simp only [RAM_SIZE] at *
      omega
  · show (if start_address ≤ start_address + i ∧
          start_address + i < start_address + rom_data.length
        then rom_data.getD (start_address + i - start_address) 0
        else e.ram (start_address + i)) = rom_data.getD i 0
    rw [if_pos ⟨by omega, by omega⟩]
    congr 1
    omega

/-- C7 witness: the two-byte ROM `[0x12, 0x34]` at start offset `0x200` is
accepted and its first byte lands at address `0x200`. -/
theorem rom_validation_and_verbatim_load_witness :
    (validate_rom [0x12, 0x34] 0x200 = .ok [0x12, 0x34] ↔
      2 ≤ ([0x12, 0x34] : List Nat).length ∧
      ([0x12, 0x34] : List Nat).length + 0x200 ≤ RAM_SIZE) ∧
    (load_rom Emu.new 0x200 [0x12, 0x34]).ram (0x200 + 0) = ([0x12, 0x34] : List Nat).getD 0 0 :=
  rom_validation_and_verbatim_load [0x12, 0x34] 0x200 0 Emu.new (by decide) (by decide)

/-- C8: one fetch-decode-execute step of the word `0xFx0A` at the program
counter: with no key pressed the step returns the state unchanged — the
fetch advance by 2 is undone by the WaitKey rewind, so the program counter
(and every register) is exactly as before; with `k` the lowest pressed key,
the step stores `k` into `Vx` and leaves the program counter advanced by 2. -/
theorem waitkey_step_net_effect (e : Emu) (x k rnd : Nat) (hx : x < 16)
    (hpc : e.program_counter + 1 < RAM_SIZE)
    (hhi : e.ram e.program_counter = 240 + x)
    (hlo : e.ram (e.program_counter + 1) = 10) :
    ((∀ j, j < 16 → e.keys j = false) → step e rnd = .ok e) ∧
    (k < 16 → e.keys k = true → (∀ j, j < k → e.keys j = false) →
      step e rnd = .ok { e with program_counter := e.program_counter + 2,
                                v := upd e.v x k }) := by
  have h1 : e.program_counter < RAM_SIZE := by omega
  have h2 : e.program_counter + 2 ≤ 65535 := by
    simp only [RAM_SIZE] at hpc; omega
  have hfetch : step e rnd =
      execute_opcode { e with program_counter := e.program_counter + 2 } (.keyOpWait x) rnd := by
    unfold step fetch_opcode read_ram chkAdd16
    rw [if_pos h1, if_pos hpc, hhi, hlo]
    simp [h2, decode_waitkey x hx]
  rw [hfetch]
  constructor
  · intro hnone
    unfold execute_opcode handle_keyop_wait
    have hscan : scan_keys e.keys 0 NUM_KEYS = none :=
      scan_keys_eq_none e.keys NUM_KEYS 0 (fun j _ hj => hnone j (by simpa [NUM_KEYS] using hj))
    simp only [hscan]
    unfold chkSub16
    rw [if_pos (by omega)]
    simp only [rt_bind_ok]
    have harith : e.program_counter + 2 - 2 = e.program_counter := by omega
    simp [harith]
  · intro hk hpress hleast
    unfold execute_opcode handle_keyop_wait
    have hscan : scan_keys e.keys 0 NUM_KEYS = some k :=
      scan_keys_eq_some e.keys k hpress NUM_KEYS 0 (by omega) (by simp [NUM_KEYS]; omega)
        (fun j _ hj => hleast j hj)
    simp only [hscan]
    unfold set_register_val
    rw [if_pos hx]

/-- C8 witness: on `waitkey_state` (word `0xF50A` at `0x200`, key 3 the only
one pressed) the step stores 3 into `V5` and advances the program counter
by 2. -/
theorem waitkey_step_net_effect_witness :
    step waitkey_state 0 =
      .ok { waitkey_state with program_counter := waitkey_state.program_counter + 2,
                               v := upd waitkey_state.v 5 3 } :=
  (waitkey_step_net_effect waitkey_state 5 3 0 (by decide) (by decide) (by decide)
    (by decide)).2 (by decide) (by decide) (by decide)

/-- C9: `handle_keyop_skip` indexes the 16-entry key array with the full
byte read from `Vx`: when `Vx ≤ 15` the access is in bounds and the program
counter gains an extra 2 exactly when the key state matches the case
(pressed for `0xEx9E`, unpressed for `0xExA1`); when `Vx > 15` the access
panics out of bounds (`RtError.panicked` models the Rust panic — no error
value is returned to a caller). -/
theorem keyop_skip_full_byte_indexing (e : Emu) (c x : Nat) (hx : x < 16)
    (hpc : e.program_counter + 2 ≤ 65535) :
    (e.v x ≤ 15 →
      handle_keyop_skip e 0x9E x =
        .ok (if e.keys (e.v x) then { e with program_counter := e.program_counter + 2 }
             else e) ∧
      handle_keyop_skip e 0xA1 x =
        .ok (if e.keys (e.v x) then e
             else { e with program_counter := e.program_counter + 2 })) ∧
    (15 < e.v x → handle_keyop_skip e c x = .error (.panicked "index out of bounds")) := by
  constructor
  · intro hv
    have hv16 : e.v x < NUM_KEYS := by simp only [NUM_KEYS]; omega
    unfold handle_keyop_skip get_register_val read_key chkAdd16
    rw [if_pos hx]
    cases hk : e.keys (e.v x) <;> simp [hv16, hk, hpc]
  · intro hv
    have hv16 : ¬ (e.v x < NUM_KEYS) := by simp only [NUM_KEYS]; omega
    unfold handle_keyop_skip get_register_val read_key
    rw [if_pos hx]
    simp [hv16]

/-- C9 witness: with `V0 = 99` the skip-if-key instruction panics on the
out-of-bounds key array access. -/
theorem keyop_skip_full_byte_indexing_witness :
    handle_keyop_skip oob_key_state 0x9E 0 = .error (.panicked "index out of bounds") :=
  (keyop_skip_full_byte_indexing oob_key_state 0x9E 0 (by decide) (by decide)).2 (by decide)

/-- C10: with destination register `x = 0xF`, the double write of
`handle_bit_op` resolves by write order: `8xy4`/`8xy5`/`8xy7` write the
arithmetic result first and the flag second, so `VF` ends holding the
carry/not-borrow flag and the result is discarded; `8xy6`/`8xyE` write the
flag first and the shift second, so `VF` ends holding its pre-shift value
shifted by one and the flag bit is discarded.  Each equation exhibits the
full final state: only `VF` changes, and to the stated value. -/
theorem bitop_vf_double_write_order (e : Emu) (y : Nat) (hy : y < 16) :
    handle_bit_op e 15 y 4 =
      .ok { e with v := upd e.v 15 (if 256 ≤ e.v 15 + e.v y then 1 else 0) } ∧
    handle_bit_op e 15 y 5 =
      .ok { e with v := upd e.v 15 (if e.v 15 < e.v y then 0 else 1) } ∧
    handle_bit_op e 15 y 7 =
      .ok { e with v := upd e.v 15 (if e.v y < e.v 15 then 0 else 1) } ∧
    handle_bit_op e 15 y 6 = .ok { e with v := upd e.v 15 (e.v 15 >>> 1) } ∧
    handle_bit_op e 15 y 14 = .ok { e with v := upd e.v 15 ((e.v 15 <<< 1) % 256) } := by
  unfold handle_bit_op get_register_val set_register_val
  rw [if_pos hy]
  refine ⟨?_, ?_, ?_, ?_, ?_⟩ <;> simp [upd_upd_same]

/-- C10 witness: `8F14` on the fresh machine, whose registers are zero:
`VF` ends holding the carry flag (0 here), not the sum. -/
theorem bitop_vf_double_write_order_witness :
    handle_bit_op Emu.new 15 1 4 =
      .ok { Emu.new with
              v := upd Emu.new.v 15 (if 256 ≤ Emu.new.v 15 + Emu.new.v 1 then 1 else 0) } :=
  (bitop_vf_double_write_order Emu.new 1 (by decide)).1
